import Mathlib

/-!
Verification of `fs/procfs/fs_procfscritmon.c`: the NuttX procfs node that
exposes per-CPU critical-section monitor maxima as a small text document
through chunked reads.

The embedding follows the C source closely.  Per-CPU counters
(`g_premp_max`, `g_crit_max`) are lists of naturals; `perf_convert` is an
external collaborator and is kept as a function parameter `conv`; build
options `CONFIG_SCHED_CRITMONITOR_MAXTIME_PREEMPTION/CSECTION >= 0` become
the booleans `incP`/`incC`; `CONFIG_SMP_NCPUS` becomes `ncpus`.  The
parameter `doReset` selects between the real StatSource (get-and-reset,
`doReset = true`, exactly the C code) and the spec's test stub
(fixed values independent of reset, `doReset = false`).
-/

namespace Critmon

/-- Size of the intermediate line buffer (`CRITMON_LINELEN`). -/
def CRITMON_LINELEN : Nat := 64

/-- Modelled from the spec: ASCII digit character for a single digit value,
as produced by the C library's decimal conversions. -/
def digitChar (d : Nat) : Char := Char.ofNat (48 + d)

/-- Modelled from the spec: fuel-driven core of decimal rendering
(the C library's `%d` / `%lu` conversions for non-negative values). -/
def natDigitsCore (fuel n : Nat) (acc : List Char) : List Char :=
  match fuel with
  | 0 => acc
  | fuel + 1 =>
    if n < 10 then digitChar n :: acc
    else natDigitsCore fuel (n / 10) (digitChar (n % 10) :: acc)

/-- Modelled from the spec: decimal rendering of a non-negative integer,
most significant digit first (`%d` / `%lu`). -/
def natDigits (n : Nat) : List Char := natDigitsCore (n + 1) n []

/-- Modelled from the spec: 9-digit zero-padded decimal rendering
(the `%09lu` conversion used for the nanoseconds part). -/
def pad9 (n : Nat) : List Char :=
  List.replicate (9 - (natDigits n).length) '0' ++ natDigits n

/-- Truncation of a rendered string to what fits in the line buffer
(`snprintf` keeps at most `CRITMON_LINELEN - 1` characters plus NUL). -/
def clampLine (s : List Char) : List Char := s.take (CRITMON_LINELEN - 1)

/-- Modelled from the spec: `procfs_snprintf` renders into the scratch line
buffer and returns the number of stored characters, clamped to the buffer
capacity.  The result is the stored line together with that count. -/
def snprintfLine (s : List Char) : List Char × Nat :=
  (clampLine s, min s.length (CRITMON_LINELEN - 1))

/-- Result of one `procfs_memcpy` call: the bytes that were copied to the
user buffer, the copy size, and the updated remaining offset. -/
structure McpyOut where
  copied : List Char
  copysize : Nat
  offset : Nat
deriving DecidableEq, Repr

/-- Modelled from the spec: `procfs_memcpy` copies into the destination
the sub-range of the source line that lies at or after the current logical
offset, bounded by the remaining destination capacity, and books the
consumed offset (spec section 4.3 step 3).  `src` is the rendered line
(its length is the `srclen` argument), `destlen` the remaining user-buffer
capacity and `offset` the remaining logical offset to skip. -/
def procfs_memcpy (src : List Char) (destlen offset : Nat) : McpyOut :=
  if src.length < offset then
    ⟨[], 0, offset - src.length⟩
  else
    ⟨(src.drop offset).take destlen, min (src.length - offset) destlen, 0⟩

/-- A `struct timespec` as filled by `perf_convert`. -/
structure Timespec where
  tv_sec : Nat
  tv_nsec : Nat
deriving DecidableEq, Repr

/-- The per-CPU monitor counters `g_premp_max` and `g_crit_max`
(indexed by CPU number). -/
structure CMState where
  premp : List Nat
  crit : List Nat
deriving DecidableEq, Repr

/-- Per-open state: the `struct file` position `f_pos` together with the
`struct critmon_file_s` fields `linesize` and `line`.  The 64-byte `line`
array is modelled by its meaningful character content. -/
structure FileH where
  f_pos : Nat
  linesize : Nat
  line : List Char
deriving DecidableEq, Repr

/-- Running totals inside `critmon_read_cpu`: bytes emitted so far in this
call, `totalsize`, the remaining `buflen` and the remaining `*offset`. -/
structure Cursor where
  out : List Char
  total : Nat
  buflen : Nat
  offset : Nat
deriving DecidableEq, Repr

/-- Result of `critmon_read_cpu`: emitted bytes, `totalsize`, the final
`*offset`, and the updated counter state and open-file state. -/
structure RcpuOut where
  out : List Char
  total : Nat
  offset : Nat
  st : CMState
  attr : FileH
deriving DecidableEq, Repr

/-- Result of the CPU loop in `critmon_read`. -/
structure LoopOut where
  out : List Char
  ret : Nat
  offset : Nat
  st : CMState
  attr : FileH
deriving DecidableEq, Repr

/-- Result of `critmon_read`: bytes delivered to the caller, the returned
count, and the updated counter state and open-file state. -/
structure ReadOut where
  out : List Char
  ret : Nat
  st : CMState
  attr : FileH
deriving DecidableEq, Repr

/-- The `maxtime` value computed from one raw counter: `perf_convert` when
the counter is positive, otherwise zero seconds and nanoseconds. -/
def durOf (conv : Nat → Timespec) (v : Nat) : Timespec :=
  if 0 < v then conv v else ⟨0, 0⟩

/-- Rendering of a duration value: seconds, a dot, then the nanoseconds
zero-padded to nine digits. -/
def durText (t : Timespec) : List Char :=
  natDigits t.tv_sec ++ '.' :: pad9 t.tv_nsec

/-- Rendering of one duration field, `",%lu.%09lu"`. -/
def durChars (t : Timespec) : List Char := ',' :: durText t

/-- One render-and-copy step of `critmon_read_cpu`: `procfs_snprintf` the
field into the scratch line, then `procfs_memcpy` the visible part into
the caller's buffer and update the running totals. -/
def emitField (s : List Char) (attr : FileH) (c : Cursor) : FileH × Cursor :=
  let r := snprintfLine s
  let m := procfs_memcpy r.1 c.buflen c.offset
  ({ attr with line := r.1 },
   ⟨c.out ++ m.copied, c.total + m.copysize, c.buflen - m.copysize, m.offset⟩)

/-- Final block of `critmon_read_cpu`: emit the terminating newline and
return `totalsize` (the `*offset` pointer is updated by the copy). -/
def finStep (st : CMState) (attr : FileH) (c : Cursor) : RcpuOut :=
  let r := emitField ['\n'] attr c
  ⟨r.2.out, r.2.total, r.2.offset, st, r.1⟩

/-- Critical-section block of `critmon_read_cpu` (the
`CONFIG_SCHED_CRITMONITOR_MAXTIME_CSECTION >= 0` region): convert
`g_crit_max[cpu]`, reset it when `doReset`, emit the field, and return
early when the buffer is exhausted. -/
def critStep (doReset : Bool) (conv : Nat → Timespec) (incC : Bool)
    (st : CMState) (attr : FileH) (c : Cursor) (cpu : Nat) : RcpuOut :=
  if incC then
    let maxtime := durOf conv (st.crit.getD cpu 0)
    let st := if doReset then { st with crit := st.crit.set cpu 0 } else st
    let r := emitField (durChars maxtime) attr c
    if r.2.buflen = 0 then ⟨r.2.out, r.2.total, r.2.offset, st, r.1⟩
    else finStep st r.1 r.2
  else finStep st attr c

/-- Pre-emption block of `critmon_read_cpu` (the
`CONFIG_SCHED_CRITMONITOR_MAXTIME_PREEMPTION >= 0` region): convert
`g_premp_max[cpu]`, reset it when `doReset`, emit the field, and return
early when the buffer is exhausted. -/
def prempStep (doReset : Bool) (conv : Nat → Timespec) (incP incC : Bool)
    (st : CMState) (attr : FileH) (c : Cursor) (cpu : Nat) : RcpuOut :=
  if incP then
    let maxtime := durOf conv (st.premp.getD cpu 0)
    let st := if doReset then { st with premp := st.premp.set cpu 0 } else st
    let r := emitField (durChars maxtime) attr c
    if r.2.buflen = 0 then ⟨r.2.out, r.2.total, r.2.offset, st, r.1⟩
    else critStep doReset conv incC st r.1 r.2 cpu
  else critStep doReset conv incC st attr c cpu

/-- Embedding of `critmon_read_cpu`: emit the CPU serial number, return if
the buffer is exhausted, then the two optional duration blocks and the
newline. -/
def critmon_read_cpu (doReset : Bool) (conv : Nat → Timespec)
    (incP incC : Bool) (st : CMState) (attr : FileH)
    (buflen offset : Nat) (cpu : Nat) : RcpuOut :=
  let r := emitField (natDigits cpu) attr ⟨[], 0, buflen, offset⟩
  if r.2.buflen = 0 then ⟨r.2.out, r.2.total, r.2.offset, st, r.1⟩
  else prempStep doReset conv incP incC st r.1 r.2 cpu

/-- Embedding of the CPU loop of `critmon_read`: every CPU is visited;
each call receives the so-far-unused part of the buffer and threads the
`offset` cursor.  The `ret > buflen` break of the C loop is kept. -/
def critmon_loop (doReset : Bool) (conv : Nat → Timespec) (incP incC : Bool) :
    List Nat → CMState → FileH → Nat → Nat → Nat → LoopOut
  | [], st, attr, _buflen, ret, offset => ⟨[], ret, offset, st, attr⟩
  | cpu :: cpus, st, attr, buflen, ret, offset =>
    let r := critmon_read_cpu doReset conv incP incC st attr
               (buflen - ret) offset cpu
    if buflen < ret + r.total then
      ⟨r.out, ret + r.total, r.offset, r.st, r.attr⟩
    else
      let rest := critmon_loop doReset conv incP incC cpus r.st r.attr
                    buflen (ret + r.total) r.offset
      ⟨r.out ++ rest.out, rest.ret, rest.offset, rest.st, rest.attr⟩

/-- Embedding of `critmon_read`: run the CPU loop from the handle's
`f_pos`, then advance `f_pos` by the returned count when it is positive. -/
def critmon_read (doReset : Bool) (conv : Nat → Timespec) (incP incC : Bool)
    (ncpus : Nat) (st : CMState) (f : FileH) (buflen : Nat) : ReadOut :=
  let l := critmon_loop doReset conv incP incC (List.range ncpus) st f
             buflen 0 f.f_pos
  let attr := if 0 < l.ret then { l.attr with f_pos := l.attr.f_pos + l.ret }
              else l.attr
  ⟨l.out, l.ret, l.st, attr⟩

/-- Modelled from the spec: NuttX `O_RDONLY` flag bit. -/
def O_RDONLY : Nat := 1

/-- Modelled from the spec: NuttX `O_WRONLY` flag bit. -/
def O_WRONLY : Nat := 2

/-- Modelled from the spec: the `EACCES` error number. -/
def EACCES : Nat := 13

/-- Modelled from the spec: the `ENOMEM` error number. -/
def ENOMEM : Nat := 12

/-- Embedding of `critmon_open`: reject any write intent, then allocate the
zeroed attribute container (`allocOk` models whether `fs_heap_zalloc`
succeeds); the fresh handle has offset `0`, `linesize = 0` and a zeroed
line buffer (modelled as the empty meaningful content). -/
def critmon_open (oflags : Nat) (allocOk : Bool) : Except Nat FileH :=
  if oflags &&& O_WRONLY ≠ 0 ∨ oflags &&& O_RDONLY = 0 then
    Except.error EACCES
  else if allocOk then Except.ok ⟨0, 0, []⟩
  else Except.error ENOMEM

/-- Embedding of `critmon_dup`: allocate a new attribute container
(`allocOk` models `fs_heap_malloc`) and `memcpy` the old state verbatim;
the `f_pos` component is carried over by the hosting VFS per the spec. -/
def critmon_dup (oldp : FileH) (allocOk : Bool) : Except Nat FileH :=
  if allocOk then Except.ok oldp else Except.error ENOMEM

/-- Modelled from the spec: the `S_IFREG` mode bit. -/
def S_IFREG : Nat := 32768

/-- Modelled from the spec: the `S_IFDIR` mode bit. -/
def S_IFDIR : Nat := 16384

/-- Modelled from the spec: the file-type mask `S_IFMT`. -/
def S_IFMT : Nat := 61440

/-- Modelled from the spec: owner read permission `S_IRUSR` (0400). -/
def S_IRUSR : Nat := 256

/-- Modelled from the spec: group read permission `S_IRGRP` (040). -/
def S_IRGRP : Nat := 32

/-- Modelled from the spec: other read permission `S_IROTH` (04). -/
def S_IROTH : Nat := 4

/-- Modelled from the spec: all write permission bits (0222). -/
def S_IWALL : Nat := 146

/-- Modelled from the spec: all execute permission bits (0111). -/
def S_IXALL : Nat := 73

/-- A `struct stat` restricted to the fields this node fills; `memset`
zeroes everything, then `st_mode` is set. -/
structure StatBuf where
  st_mode : Nat
  st_size : Nat
deriving DecidableEq, Repr

/-- Embedding of `critmon_stat`: zero the buffer, set
`S_IFREG | S_IROTH | S_IRGRP | S_IRUSR`, and return `OK` (0). -/
def critmon_stat (_relpath : String) : Int × StatBuf :=
  (0, ⟨S_IFREG ||| S_IROTH ||| S_IRGRP ||| S_IRUSR, 0⟩)

/-- Abstract walk over a list of rendered fields: clamp each field to the
line buffer, copy the visible slice, stop when the buffer is exhausted.
This is the data-flow skeleton shared by all branches of
`critmon_read_cpu`. -/
def copyFields : List (List Char) → Nat → Nat → List Char × Nat × Nat
  | [], _, off => ([], 0, off)
  | s :: rest, b, off =>
    let m := procfs_memcpy (clampLine s) b off
    if b - m.copysize = 0 then (m.copied, m.copysize, m.offset)
    else
      let r := copyFields rest (b - m.copysize) m.offset
      (m.copied ++ r.1, m.copysize + r.2.1, r.2.2)

/-- The rendered fields of one CPU record from the critical-section block
on: the enabled crit-max column followed by the newline. -/
def critFields (conv : Nat → Timespec) (incC : Bool) (st : CMState)
    (cpu : Nat) : List (List Char) :=
  (if incC then [durChars (durOf conv (st.crit.getD cpu 0))] else [])
    ++ [['\n']]

/-- The rendered fields of one CPU record from the pre-emption block on:
the enabled preempt-max column followed by the rest of the record. -/
def prempFields (conv : Nat → Timespec) (incP incC : Bool) (st : CMState)
    (cpu : Nat) : List (List Char) :=
  (if incP then [durChars (durOf conv (st.premp.getD cpu 0))] else [])
    ++ critFields conv incC st cpu

/-- The rendered fields of one CPU record, in emission order, computed
from a counter state: CPU serial number, the enabled duration columns,
and the newline. -/
def cpuFields (conv : Nat → Timespec) (incP incC : Bool) (st : CMState)
    (cpu : Nat) : List (List Char) :=
  natDigits cpu :: prempFields conv incP incC st cpu

/-- Concatenation of a field list as stored in the line buffer. -/
def flatClamped (fs : List (List Char)) : List Char :=
  (fs.map clampLine).flatten

/-- The full rendered record of one CPU. -/
def recordChars (conv : Nat → Timespec) (incP incC : Bool) (st : CMState)
    (cpu : Nat) : List Char :=
  flatClamped (cpuFields conv incP incC st cpu)

/-- The document over a given list of CPU indices. -/
def docOf (conv : Nat → Timespec) (incP incC : Bool) (st : CMState)
    (cpus : List Nat) : List Char :=
  (cpus.map (recordChars conv incP incC st)).flatten

/-- The whole logical document: the concatenation of all CPU records. -/
def document (conv : Nat → Timespec) (incP incC : Bool) (ncpus : Nat)
    (st : CMState) : List Char :=
  docOf conv incP incC st (List.range ncpus)

/-- Successive reads on one handle with the given buffer sizes; returns
the concatenation of all bytes delivered. -/
def chainOut (doReset : Bool) (conv : Nat → Timespec) (incP incC : Bool)
    (ncpus : Nat) : CMState → FileH → List Nat → List Char
  | _, _, [] => []
  | st, f, b :: bs =>
    let r := critmon_read doReset conv incP incC ncpus st f b
    r.out ++ chainOut doReset conv incP incC ncpus r.st r.attr bs

/-- A concrete stand-in for `perf_convert` running at 1 GHz: one counter
tick is one nanosecond. -/
def convGHz (n : Nat) : Timespec := ⟨n / 1000000000, n % 1000000000⟩

/-- A concrete stand-in for `perf_convert` running at 1 Hz: one counter
tick is one second. -/
def convSecs (n : Nat) : Timespec := ⟨n, 0⟩

/-! ## Basic lemmas about the copy helpers -/

theorem procfs_memcpy_eq (src : List Char) (b off : Nat) :
    procfs_memcpy src b off =
      ⟨(src.drop off).take b, min b (src.length - off), off - src.length⟩ := by
  unfold procfs_memcpy
  split
  · rename_i h
    have h1 : src.drop off = [] := List.drop_eq_nil_of_le (Nat.le_of_lt h)
    have h2 : src.length - off = 0 := by omega
    have h3 : min b 0 = 0 := by omega
    simp [h1, h2, h3]
  · rename_i h
    have h2 : off - src.length = 0 := by omega
    have h3 : min (src.length - off) b = min b (src.length - off) := by omega
    simp [h2, h3]

theorem copyFields_single (s : List Char) (b off : Nat) :
    copyFields [s] b off =
      ((procfs_memcpy (clampLine s) b off).copied,
       (procfs_memcpy (clampLine s) b off).copysize,
       (procfs_memcpy (clampLine s) b off).offset) := by
  simp only [copyFields]
  split <;> simp

theorem copyFields_zero (fs : List (List Char)) (off : Nat) :
    (copyFields fs 0 off).1 = [] ∧ (copyFields fs 0 off).2.1 = 0 := by
  cases fs with
  | nil => simp [copyFields]
  | cons s rest =>
    simp [copyFields, procfs_memcpy_eq]

theorem copyFields_eq (fs : List (List Char)) (b off : Nat) (hb : 0 < b) :
    copyFields fs b off =
      (((flatClamped fs).drop off).take b,
       min b ((flatClamped fs).length - off),
       off - (flatClamped fs).length) := by
  induction fs generalizing b off with
  | nil =>
    have h0 : min b 0 = 0 := by omega
    simp [copyFields, flatClamped, h0]
  | cons s rest ih =>
    have hfc : flatClamped (s :: rest) = clampLine s ++ flatClamped rest := by
      simp [flatClamped]
    simp only [copyFields, procfs_memcpy_eq, hfc]
    by_cases h : b - min b ((clampLine s).length - off) = 0
    · rw [if_pos h]
      simp only [Prod.mk.injEq]
      refine ⟨?_, ?_, ?_⟩
      · rw [List.drop_append_eq_append_drop, List.take_append_eq_append_take,
            List.length_drop]
        have h2 : b - ((clampLine s).length - off) = 0 := by omega
        rw [h2]
        simp
      · rw [List.length_append]; omega
      · rw [List.length_append]; omega
    · rw [if_neg h]
      rw [ih _ _ (by omega)]
      simp only [Prod.mk.injEq]
      refine ⟨?_, ?_, ?_⟩
      · rw [List.drop_append_eq_append_drop, List.take_append_eq_append_take,
            List.length_drop]
        have h2 : b - min b ((clampLine s).length - off)
            = b - ((clampLine s).length - off) := by omega
        rw [h2]
      · rw [List.length_append]; omega
      · rw [List.length_append]; omega

theorem getD_set_self (l : List Nat) (i : Nat) : (l.set i 0).getD i 0 = 0 := by
  by_cases h : i < l.length
  · simp [List.getD, List.getElem?_set_self, h]
  · rw [List.set_eq_of_length_le (Nat.le_of_not_lt h)]
    simp [List.getD, List.getElem?_eq_none (Nat.le_of_not_lt h)]

theorem getD_set_other (l : List Nat) (i j v d : Nat) (h : i ≠ j) :
    (l.set i v).getD j d = l.getD j d := by
  simp [List.getD, List.getElem?_set_ne h]

theorem emitField_eq (s : List Char) (attr : FileH) (c : Cursor) :
    emitField s attr c =
      ({ attr with line := clampLine s },
       ⟨c.out ++ ((clampLine s).drop c.offset).take c.buflen,
        c.total + min c.buflen ((clampLine s).length - c.offset),
        c.buflen - min c.buflen ((clampLine s).length - c.offset),
        c.offset - (clampLine s).length⟩) := by
  simp [emitField, snprintfLine, procfs_memcpy_eq]

/-! ## Data-flow specifications of the record blocks

Each block of `critmon_read_cpu` behaves, on the emitted bytes, the
`totalsize` accumulator and the `*offset` cursor, like the abstract
`copyFields` walk over the fields it still has to render. -/

theorem emit_then_spec (s : List Char) (attr : FileH) (c : Cursor)
    (stE : CMState) (k : FileH → Cursor → RcpuOut) (rest : List (List Char))
    (hk : ∀ a' c',
      (k a' c').out = c'.out ++ (copyFields rest c'.buflen c'.offset).1
      ∧ (k a' c').total = c'.total + (copyFields rest c'.buflen c'.offset).2.1
      ∧ (k a' c').offset = (copyFields rest c'.buflen c'.offset).2.2
      ∧ (k a' c').attr.f_pos = a'.f_pos) :
    ((if (emitField s attr c).2.buflen = 0 then
        (⟨(emitField s attr c).2.out, (emitField s attr c).2.total,
          (emitField s attr c).2.offset, stE, (emitField s attr c).1⟩ : RcpuOut)
      else k (emitField s attr c).1 (emitField s attr c).2).out
        = c.out ++ (copyFields (s :: rest) c.buflen c.offset).1)
    ∧ ((if (emitField s attr c).2.buflen = 0 then
        (⟨(emitField s attr c).2.out, (emitField s attr c).2.total,
          (emitField s attr c).2.offset, stE, (emitField s attr c).1⟩ : RcpuOut)
      else k (emitField s attr c).1 (emitField s attr c).2).total
        = c.total + (copyFields (s :: rest) c.buflen c.offset).2.1)
    ∧ ((if (emitField s attr c).2.buflen = 0 then
        (⟨(emitField s attr c).2.out, (emitField s attr c).2.total,
          (emitField s attr c).2.offset, stE, (emitField s attr c).1⟩ : RcpuOut)
      else k (emitField s attr c).1 (emitField s attr c).2).offset
        = (copyFields (s :: rest) c.buflen c.offset).2.2)
    ∧ ((if (emitField s attr c).2.buflen = 0 then
        (⟨(emitField s attr c).2.out, (emitField s attr c).2.total,
          (emitField s attr c).2.offset, stE, (emitField s attr c).1⟩ : RcpuOut)
      else k (emitField s attr c).1 (emitField s attr c).2).attr.f_pos
        = attr.f_pos) := by
  rw [emitField_eq]
  simp only [copyFields, procfs_memcpy_eq]
  by_cases hb : c.buflen - min c.buflen ((clampLine s).length - c.offset) = 0
  · rw [if_pos hb]
    simp [hb]
  · rw [if_neg hb]
    have h := hk { attr with line := clampLine s }
      ⟨c.out ++ ((clampLine s).drop c.offset).take c.buflen,
       c.total + min c.buflen ((clampLine s).length - c.offset),
       c.buflen - min c.buflen ((clampLine s).length - c.offset),
       c.offset - (clampLine s).length⟩
    simp only at h
    rw [if_neg hb]
    simp [h.1, h.2.1, h.2.2.1, h.2.2.2, List.append_assoc, Nat.add_assoc]

theorem finStep_spec (st : CMState) (attr : FileH) (c : Cursor) :
    (finStep st attr c).out
      = c.out ++ (copyFields [['\n']] c.buflen c.offset).1
    ∧ (finStep st attr c).total
      = c.total + (copyFields [['\n']] c.buflen c.offset).2.1
    ∧ (finStep st attr c).offset
      = (copyFields [['\n']] c.buflen c.offset).2.2
    ∧ (finStep st attr c).attr.f_pos = attr.f_pos := by
  simp [finStep, emitField_eq, copyFields_single, procfs_memcpy_eq]

theorem critStep_spec (doReset : Bool) (conv : Nat → Timespec) (incC : Bool)
    (st : CMState) (attr : FileH) (c : Cursor) (cpu : Nat) :
    (critStep doReset conv incC st attr c cpu).out
      = c.out ++ (copyFields (critFields conv incC st cpu) c.buflen c.offset).1
    ∧ (critStep doReset conv incC st attr c cpu).total
      = c.total + (copyFields (critFields conv incC st cpu) c.buflen c.offset).2.1
    ∧ (critStep doReset conv incC st attr c cpu).offset
      = (copyFields (critFields conv incC st cpu) c.buflen c.offset).2.2
    ∧ (critStep doReset conv incC st attr c cpu).attr.f_pos = attr.f_pos := by
  cases incC with
  | false => simpa [critStep, critFields] using finStep_spec st attr c
  | true =>
    have h := emit_then_spec (durChars (durOf conv (st.crit.getD cpu 0))) attr c
      (if doReset then { st with crit := st.crit.set cpu 0 } else st)
      (fun a' c' =>
        finStep (if doReset then { st with crit := st.crit.set cpu 0 } else st) a' c')
      [['\n']]
      (fun a' c' => finStep_spec _ a' c')
    simpa [critStep, critFields] using h

theorem prempStep_spec (doReset : Bool) (conv : Nat → Timespec)
    (incP incC : Bool) (st : CMState) (attr : FileH) (c : Cursor) (cpu : Nat) :
    (prempStep doReset conv incP incC st attr c cpu).out
      = c.out ++ (copyFields (prempFields conv incP incC st cpu) c.buflen c.offset).1
    ∧ (prempStep doReset conv incP incC st attr c cpu).total
      = c.total + (copyFields (prempFields conv incP incC st cpu) c.buflen c.offset).2.1
    ∧ (prempStep doReset conv incP incC st attr c cpu).offset
      = (copyFields (prempFields conv incP incC st cpu) c.buflen c.offset).2.2
    ∧ (prempStep doReset conv incP incC st attr c cpu).attr.f_pos = attr.f_pos := by
  cases incP with
  | false => simpa [prempStep, prempFields] using critStep_spec doReset conv incC st attr c cpu
  | true =>
    have h := emit_then_spec (durChars (durOf conv (st.premp.getD cpu 0))) attr c
      (if doReset then { st with premp := st.premp.set cpu 0 } else st)
      (fun a' c' =>
        critStep doReset conv incC
          (if doReset then { st with premp := st.premp.set cpu 0 } else st) a' c' cpu)
      (critFields conv incC st cpu)
      (fun a' c' => by
        have hc := critStep_spec doReset conv incC
          (if doReset then { st with premp := st.premp.set cpu 0 } else st) a' c' cpu
        have heq : critFields conv incC
            (if doReset then { st with premp := st.premp.set cpu 0 } else st) cpu
            = critFields conv incC st cpu := by
          cases doReset <;> rfl
        rw [heq] at hc
        exact hc)
    simpa [prempStep, prempFields] using h

theorem read_cpu_data (doReset : Bool) (conv : Nat → Timespec)
    (incP incC : Bool) (st : CMState) (attr : FileH) (b off cpu : Nat) :
    (critmon_read_cpu doReset conv incP incC st attr b off cpu).out
      = (copyFields (cpuFields conv incP incC st cpu) b off).1
    ∧ (critmon_read_cpu doReset conv incP incC st attr b off cpu).total
      = (copyFields (cpuFields conv incP incC st cpu) b off).2.1
    ∧ (critmon_read_cpu doReset conv incP incC st attr b off cpu).offset
      = (copyFields (cpuFields conv incP incC st cpu) b off).2.2
    ∧ (critmon_read_cpu doReset conv incP incC st attr b off cpu).attr.f_pos
      = attr.f_pos := by
  have h := emit_then_spec (natDigits cpu) attr ⟨[], 0, b, off⟩ st
    (fun a' c' => prempStep doReset conv incP incC st a' c' cpu)
    (prempFields conv incP incC st cpu)
    (fun a' c' => prempStep_spec doReset conv incP incC st a' c' cpu)
  simpa [critmon_read_cpu, cpuFields] using h

/-! ## State effects of the record blocks -/

theorem critStep_st_premp (doReset : Bool) (conv : Nat → Timespec)
    (incC : Bool) (st : CMState) (attr : FileH) (c : Cursor) (cpu : Nat) :
    (critStep doReset conv incC st attr c cpu).st.premp = st.premp := by
  cases incC with
  | false => simp [critStep, finStep]
  | true =>
    cases doReset <;> simp only [critStep, finStep, if_true, if_false] <;>
      split <;> rfl

theorem critStep_st_stub (conv : Nat → Timespec) (incC : Bool)
    (st : CMState) (attr : FileH) (c : Cursor) (cpu : Nat) :
    (critStep false conv incC st attr c cpu).st = st := by
  cases incC with
  | false => simp [critStep, finStep]
  | true => simp only [critStep, if_true, if_false] ; split <;> rfl

theorem critStep_crit_reset (conv : Nat → Timespec) (incC : Bool)
    (st : CMState) (attr : FileH) (c : Cursor) (cpu : Nat) (hC : incC = true) :
    (critStep true conv incC st attr c cpu).st.crit = st.crit.set cpu 0 := by
  subst hC
  simp only [critStep, if_true]
  split <;> rfl

theorem prempStep_st_stub (conv : Nat → Timespec) (incP incC : Bool)
    (st : CMState) (attr : FileH) (c : Cursor) (cpu : Nat) :
    (prempStep false conv incP incC st attr c cpu).st = st := by
  cases incP with
  | false => simpa [prempStep] using critStep_st_stub conv incC st attr c cpu
  | true =>
    simp only [prempStep, if_true, if_false]
    split
    · rfl
    · exact critStep_st_stub conv incC st _ _ cpu

theorem prempStep_premp_reset (conv : Nat → Timespec) (incP incC : Bool)
    (st : CMState) (attr : FileH) (c : Cursor) (cpu : Nat) (hP : incP = true) :
    (prempStep true conv incP incC st attr c cpu).st.premp
      = st.premp.set cpu 0 := by
  subst hP
  simp only [prempStep, if_true]
  split
  · rfl
  · rw [critStep_st_premp]

theorem prempStep_crit_reached (conv : Nat → Timespec) (incP incC : Bool)
    (st : CMState) (attr : FileH) (c : Cursor) (cpu : Nat) (hC : incC = true)
    (h : 0 < c.buflen - (copyFields
        (if incP = true then [durChars (durOf conv (st.premp.getD cpu 0))] else [])
        c.buflen c.offset).2.1) :
    (prempStep true conv incP incC st attr c cpu).st.crit
      = st.crit.set cpu 0 := by
  cases incP with
  | false =>
    simpa [prempStep] using critStep_crit_reset conv incC st attr c cpu hC
  | true =>
    rw [if_pos rfl, copyFields_single, procfs_memcpy_eq] at h
    simp only at h
    simp only [prempStep, if_true, emitField_eq]
    rw [if_neg (by omega)]
    rw [critStep_crit_reset _ _ _ _ _ _ hC]

theorem prempStep_crit_unreached (doReset : Bool) (conv : Nat → Timespec)
    (incP incC : Bool) (st : CMState) (attr : FileH) (c : Cursor) (cpu : Nat)
    (hb : 0 < c.buflen)
    (h : c.buflen - (copyFields
        (if incP = true then [durChars (durOf conv (st.premp.getD cpu 0))] else [])
        c.buflen c.offset).2.1 = 0) :
    (prempStep doReset conv incP incC st attr c cpu).st.crit = st.crit := by
  cases incP with
  | false =>
    rw [if_neg (by simp)] at h
    simp only [copyFields] at h
    omega
  | true =>
    rw [if_pos rfl, copyFields_single, procfs_memcpy_eq] at h
    simp only at h
    simp only [prempStep, if_true, emitField_eq]
    rw [if_pos (by omega)]
    cases doReset <;> rfl

theorem critStep_other (doReset : Bool) (conv : Nat → Timespec) (incC : Bool)
    (st : CMState) (attr : FileH) (c : Cursor) (cpu j d : Nat) (hj : j ≠ cpu) :
    (critStep doReset conv incC st attr c cpu).st.premp.getD j d
        = st.premp.getD j d
    ∧ (critStep doReset conv incC st attr c cpu).st.crit.getD j d
        = st.crit.getD j d := by
  cases incC with
  | false => simp [critStep, finStep]
  | true =>
    cases doReset with
    | false => rw [critStep_st_stub] ; exact ⟨rfl, rfl⟩
    | true =>
      refine ⟨by rw [critStep_st_premp], ?_⟩
      rw [critStep_crit_reset _ _ _ _ _ _ rfl]
      exact getD_set_other _ _ _ _ _ (fun hh => hj hh.symm)

theorem prempStep_other (doReset : Bool) (conv : Nat → Timespec)
    (incP incC : Bool) (st : CMState) (attr : FileH) (c : Cursor)
    (cpu j d : Nat) (hj : j ≠ cpu) :
    (prempStep doReset conv incP incC st attr c cpu).st.premp.getD j d
        = st.premp.getD j d
    ∧ (prempStep doReset conv incP incC st attr c cpu).st.crit.getD j d
        = st.crit.getD j d := by
  cases incP with
  | false =>
    simpa [prempStep] using critStep_other doReset conv incC st attr c cpu j d hj
  | true =>
    simp only [prempStep, if_true]
    split
    · cases doReset with
      | false => exact ⟨rfl, rfl⟩
      | true =>
        exact ⟨getD_set_other _ _ _ _ _ (fun hh => hj hh.symm), rfl⟩
    · cases doReset with
      | false =>
        simpa using critStep_other false conv incC st _ _ cpu j d hj
      | true =>
        rw [if_pos rfl]
        have h := critStep_other true conv incC
          { st with premp := st.premp.set cpu 0 }
          (emitField (durChars (durOf conv (st.premp.getD cpu 0))) attr c).1
          (emitField (durChars (durOf conv (st.premp.getD cpu 0))) attr c).2
          cpu j d hj
        simp only at h
        rw [h.1, h.2]
        exact ⟨getD_set_other _ _ _ _ _ (fun hh => hj hh.symm), rfl⟩

theorem read_cpu_st_stub (conv : Nat → Timespec) (incP incC : Bool)
    (st : CMState) (attr : FileH) (b off cpu : Nat) :
    (critmon_read_cpu false conv incP incC st attr b off cpu).st = st := by
  simp only [critmon_read_cpu]
  split
  · rfl
  · exact prempStep_st_stub conv incP incC st _ _ cpu

theorem read_cpu_fpos (doReset : Bool) (conv : Nat → Timespec)
    (incP incC : Bool) (st : CMState) (attr : FileH) (b off cpu : Nat) :
    (critmon_read_cpu doReset conv incP incC st attr b off cpu).attr.f_pos
        = attr.f_pos :=
  (read_cpu_data doReset conv incP incC st attr b off cpu).2.2.2

theorem read_cpu_zero (doReset : Bool) (conv : Nat → Timespec)
    (incP incC : Bool) (st : CMState) (attr : FileH) (off cpu : Nat) :
    (critmon_read_cpu doReset conv incP incC st attr 0 off cpu).out = []
    ∧ (critmon_read_cpu doReset conv incP incC st attr 0 off cpu).total = 0
    ∧ (critmon_read_cpu doReset conv incP incC st attr 0 off cpu).st = st := by
  simp [critmon_read_cpu, emitField_eq]

theorem read_cpu_premp_reset (conv : Nat → Timespec) (incP incC : Bool)
    (st : CMState) (attr : FileH) (b off cpu : Nat) (hP : incP = true)
    (h : 0 < b - (copyFields [natDigits cpu] b off).2.1) :
    (critmon_read_cpu true conv incP incC st attr b off cpu).st.premp
      = st.premp.set cpu 0 := by
  rw [copyFields_single, procfs_memcpy_eq] at h
  simp only at h
  simp only [critmon_read_cpu, emitField_eq]
  rw [if_neg (by omega)]
  exact prempStep_premp_reset conv incP incC st _ _ cpu hP

theorem read_cpu_crit_reset (conv : Nat → Timespec) (incP incC : Bool)
    (st : CMState) (attr : FileH) (b off cpu : Nat) (hC : incC = true)
    (h : 0 < b - (copyFields (natDigits cpu ::
        (if incP = true then [durChars (durOf conv (st.premp.getD cpu 0))] else []))
        b off).2.1) :
    (critmon_read_cpu true conv incP incC st attr b off cpu).st.crit
      = st.crit.set cpu 0 := by
  rw [copyFields] at h
  rw [procfs_memcpy_eq] at h
  simp only at h
  by_cases h1 : b - min b ((clampLine (natDigits cpu)).length - off) = 0
  · rw [if_pos h1] at h
    simp only at h
    omega
  · rw [if_neg h1] at h
    simp only at h
    simp only [critmon_read_cpu, emitField_eq]
    rw [if_neg (by omega)]
    refine prempStep_crit_reached conv incP incC st _ _ cpu hC ?_
    dsimp only
    omega

theorem read_cpu_st_unreached (doReset : Bool) (conv : Nat → Timespec)
    (incP incC : Bool) (st : CMState) (attr : FileH) (b off cpu : Nat)
    (h : b - (copyFields [natDigits cpu] b off).2.1 = 0) :
    (critmon_read_cpu doReset conv incP incC st attr b off cpu).st = st := by
  rw [copyFields_single, procfs_memcpy_eq] at h
  simp only at h
  simp only [critmon_read_cpu, emitField_eq]
  rw [if_pos (by omega)]

theorem read_cpu_crit_unreached (doReset : Bool) (conv : Nat → Timespec)
    (incP incC : Bool) (st : CMState) (attr : FileH) (b off cpu : Nat)
    (h : b - (copyFields (natDigits cpu ::
        (if incP = true then [durChars (durOf conv (st.premp.getD cpu 0))] else []))
        b off).2.1 = 0) :
    (critmon_read_cpu doReset conv incP incC st attr b off cpu).st.crit
      = st.crit := by
  rw [copyFields] at h
  rw [procfs_memcpy_eq] at h
  simp only at h
  by_cases h1 : b - min b ((clampLine (natDigits cpu)).length - off) = 0
  · rw [read_cpu_st_unreached doReset conv incP incC st attr b off cpu
      (by rw [copyFields_single, procfs_memcpy_eq] ; simp only [] ; omega)]
  · rw [if_neg h1] at h
    simp only at h
    simp only [critmon_read_cpu, emitField_eq]
    rw [if_neg (by omega)]
    refine prempStep_crit_unreached doReset conv incP incC st _ _ cpu
      (by dsimp only ; omega) ?_
    dsimp only
    omega

theorem read_cpu_other (doReset : Bool) (conv : Nat → Timespec)
    (incP incC : Bool) (st : CMState) (attr : FileH) (b off cpu j d : Nat)
    (hj : j ≠ cpu) :
    (critmon_read_cpu doReset conv incP incC st attr b off cpu).st.premp.getD j d
        = st.premp.getD j d
    ∧ (critmon_read_cpu doReset conv incP incC st attr b off cpu).st.crit.getD j d
        = st.crit.getD j d := by
  simp only [critmon_read_cpu]
  split
  · exact ⟨rfl, rfl⟩
  · exact prempStep_other doReset conv incP incC st _ _ cpu j d hj

/-! ## Per-call byte counts -/

theorem copyFields_len (fs : List (List Char)) (b off : Nat) :
    (copyFields fs b off).1.length = (copyFields fs b off).2.1 := by
  rcases Nat.eq_zero_or_pos b with hb | hb
  · subst hb
    have h := copyFields_zero fs off
    rw [h.1, h.2]
    rfl
  · rw [copyFields_eq fs b off hb]
    simp

theorem read_cpu_total_len (doReset : Bool) (conv : Nat → Timespec)
    (incP incC : Bool) (st : CMState) (attr : FileH) (b off cpu : Nat) :
    (critmon_read_cpu doReset conv incP incC st attr b off cpu).total
      = (critmon_read_cpu doReset conv incP incC st attr b off cpu).out.length := by
  have h := read_cpu_data doReset conv incP incC st attr b off cpu
  rw [h.1, h.2.1]
  exact (copyFields_len _ _ _).symm

theorem read_cpu_total_le (doReset : Bool) (conv : Nat → Timespec)
    (incP incC : Bool) (st : CMState) (attr : FileH) (b off cpu : Nat) :
    (critmon_read_cpu doReset conv incP incC st attr b off cpu).total ≤ b := by
  rcases Nat.eq_zero_or_pos b with hb | hb
  · subst hb
    rw [(read_cpu_zero doReset conv incP incC st attr off cpu).2.1]
  · rw [(read_cpu_data doReset conv incP incC st attr b off cpu).2.1,
        copyFields_eq _ _ _ hb]
    simp only
    omega

/-! ## The CPU loop -/

theorem loop_fpos (doReset : Bool) (conv : Nat → Timespec) (incP incC : Bool)
    (cpus : List Nat) (st : CMState) (attr : FileH) (buflen ret off : Nat) :
    (critmon_loop doReset conv incP incC cpus st attr buflen ret off).attr.f_pos
      = attr.f_pos := by
  induction cpus generalizing st attr ret off with
  | nil => rfl
  | cons cpu cpus ih =>
    simp only [critmon_loop]
    split
    · exact read_cpu_fpos doReset conv incP incC st attr (buflen - ret) off cpu
    · rw [ih]
      exact read_cpu_fpos doReset conv incP incC st attr (buflen - ret) off cpu

theorem loop_exhausted (doReset : Bool) (conv : Nat → Timespec)
    (incP incC : Bool) (cpus : List Nat) (st : CMState) (attr : FileH)
    (buflen ret off : Nat) (h : buflen ≤ ret) :
    (critmon_loop doReset conv incP incC cpus st attr buflen ret off).out = []
    ∧ (critmon_loop doReset conv incP incC cpus st attr buflen ret off).ret = ret
    ∧ (critmon_loop doReset conv incP incC cpus st attr buflen ret off).st = st := by
  induction cpus generalizing st attr off with
  | nil => simp [critmon_loop]
  | cons cpu cpus ih =>
    have hb : buflen - ret = 0 := by omega
    have hz := read_cpu_zero doReset conv incP incC st attr off cpu
    simp only [critmon_loop, hb]
    rw [hz.1, hz.2.1, hz.2.2]
    split
    · exact ⟨rfl, rfl, rfl⟩
    · have hr := ih st
        (critmon_read_cpu doReset conv incP incC st attr 0 off cpu).attr
        (critmon_read_cpu doReset conv incP incC st attr 0 off cpu).offset
      simp only [Nat.add_zero]
      rw [hr.1, hr.2.1, hr.2.2]
      exact ⟨rfl, rfl, rfl⟩

theorem loop_ret_len (doReset : Bool) (conv : Nat → Timespec)
    (incP incC : Bool) (cpus : List Nat) (st : CMState) (attr : FileH)
    (buflen ret off : Nat) :
    (critmon_loop doReset conv incP incC cpus st attr buflen ret off).ret
      = ret +
        (critmon_loop doReset conv incP incC cpus st attr buflen ret off).out.length := by
  induction cpus generalizing st attr ret off with
  | nil => simp [critmon_loop]
  | cons cpu cpus ih =>
    simp only [critmon_loop]
    split
    · simp [read_cpu_total_len]
    · rw [ih]
      rw [read_cpu_total_len]
      simp [Nat.add_assoc]

theorem loop_stub (conv : Nat → Timespec) (incP incC : Bool)
    (cpus : List Nat) (st : CMState) (attr : FileH) (buflen ret off : Nat)
    (h : ret ≤ buflen) :
    (critmon_loop false conv incP incC cpus st attr buflen ret off).out
      = ((docOf conv incP incC st cpus).drop off).take (buflen - ret)
    ∧ (critmon_loop false conv incP incC cpus st attr buflen ret off).ret
      = ret + min (buflen - ret) ((docOf conv incP incC st cpus).length - off)
    ∧ (critmon_loop false conv incP incC cpus st attr buflen ret off).st = st := by
  induction cpus generalizing st attr ret off with
  | nil =>
    have h0 : min (buflen - ret) 0 = 0 := by omega
    simp [critmon_loop, docOf, h0]
  | cons cpu cpus ih =>
    have hdoc : docOf conv incP incC st (cpu :: cpus)
        = flatClamped (cpuFields conv incP incC st cpu)
            ++ docOf conv incP incC st cpus := by
      simp [docOf, recordChars]
    rw [hdoc]
    by_cases hb : buflen - ret = 0
    · have he := loop_exhausted false conv incP incC (cpu :: cpus) st attr
        buflen ret off (by omega)
      rw [he.1, he.2.1, he.2.2, hb]
      have h0 : min 0 ((flatClamped (cpuFields conv incP incC st cpu)
        ++ docOf conv incP incC st cpus).length - off) = 0 := by omega
      simp [h0]
    · have hb' : 0 < buflen - ret := by omega
      have hd := read_cpu_data false conv incP incC st attr (buflen - ret) off cpu
      rw [copyFields_eq _ _ _ hb'] at hd
      simp only at hd
      have hst := read_cpu_st_stub conv incP incC st attr (buflen - ret) off cpu
      simp only [critmon_loop]
      rw [if_neg (by rw [hd.2.1] ; omega)]
      rw [hd.1, hd.2.1, hd.2.2.1, hst]
      have hih := ih st
        (critmon_read_cpu false conv incP incC st attr (buflen - ret) off cpu).attr
        (ret + min (buflen - ret)
          ((flatClamped (cpuFields conv incP incC st cpu)).length - off))
        (off - (flatClamped (cpuFields conv incP incC st cpu)).length)
        (by omega)
      rw [hih.1, hih.2.1, hih.2.2]
      refine ⟨?_, by rw [List.length_append] ; omega, rfl⟩
      have harg : buflen - (ret + min (buflen - ret)
            ((flatClamped (cpuFields conv incP incC st cpu)).length - off))
          = (buflen - ret)
            - ((flatClamped (cpuFields conv incP incC st cpu)).length - off) := by
        omega
      rw [harg, List.drop_append_eq_append_drop, List.take_append_eq_append_take,
          List.length_drop]

/-! ## The read call -/

theorem read_stub (conv : Nat → Timespec) (incP incC : Bool) (ncpus : Nat)
    (st : CMState) (f : FileH) (b : Nat) :
    (critmon_read false conv incP incC ncpus st f b).out
      = ((document conv incP incC ncpus st).drop f.f_pos).take b
    ∧ (critmon_read false conv incP incC ncpus st f b).ret
      = min b ((document conv incP incC ncpus st).length - f.f_pos)
    ∧ (critmon_read false conv incP incC ncpus st f b).st = st
    ∧ (critmon_read false conv incP incC ncpus st f b).attr.f_pos
      = f.f_pos + min b ((document conv incP incC ncpus st).length - f.f_pos) := by
  have hl := loop_stub conv incP incC (List.range ncpus) st f b 0 f.f_pos
    (Nat.zero_le b)
  have hfp := loop_fpos false conv incP incC (List.range ncpus) st f b 0 f.f_pos
  rw [Nat.sub_zero] at hl
  rw [Nat.zero_add] at hl
  simp only [critmon_read, document]
  rw [hl.1, hl.2.1, hl.2.2]
  refine ⟨rfl, rfl, rfl, ?_⟩
  split
  · simp [hfp]
  · rename_i hz
    have : min b ((docOf conv incP incC st (List.range ncpus)).length - f.f_pos)
        = 0 := by omega
    rw [this, hfp, Nat.add_zero]

theorem read_ret_len (doReset : Bool) (conv : Nat → Timespec)
    (incP incC : Bool) (ncpus : Nat) (st : CMState) (f : FileH) (b : Nat) :
    (critmon_read doReset conv incP incC ncpus st f b).ret
      = (critmon_read doReset conv incP incC ncpus st f b).out.length
    ∧ (critmon_read doReset conv incP incC ncpus st f b).attr.f_pos
      = f.f_pos + (critmon_read doReset conv incP incC ncpus st f b).out.length := by
  have hl := loop_ret_len doReset conv incP incC (List.range ncpus) st f b 0 f.f_pos
  have hfp := loop_fpos doReset conv incP incC (List.range ncpus) st f b 0 f.f_pos
  rw [Nat.zero_add] at hl
  simp only [critmon_read]
  rw [hl]
  refine ⟨rfl, ?_⟩
  split
  · simp [hfp]
  · rename_i hz
    have h0 : (critmon_loop doReset conv incP incC (List.range ncpus) st f b 0
        f.f_pos).out.length = 0 := by omega
    rw [hfp, h0, Nat.add_zero]

theorem read_zero (doReset : Bool) (conv : Nat → Timespec) (incP incC : Bool)
    (ncpus : Nat) (st : CMState) (f : FileH) :
    (critmon_read doReset conv incP incC ncpus st f 0).out = []
    ∧ (critmon_read doReset conv incP incC ncpus st f 0).ret = 0
    ∧ (critmon_read doReset conv incP incC ncpus st f 0).st = st
    ∧ (critmon_read doReset conv incP incC ncpus st f 0).attr.f_pos = f.f_pos := by
  have hl := loop_exhausted doReset conv incP incC (List.range ncpus) st f 0 0
    f.f_pos (Nat.le_refl 0)
  have hfp := loop_fpos doReset conv incP incC (List.range ncpus) st f 0 0 f.f_pos
  simp only [critmon_read]
  rw [hl.1, hl.2.1, hl.2.2]
  simp [hfp]

/-! ## Chained reads -/

theorem list_drop_min (l : List Char) (b n : Nat) :
    l.drop (n + min b (l.length - n)) = (l.drop n).drop b := by
  rcases Nat.le_total b (l.length - n) with h | h
  · have : min b (l.length - n) = b := by omega
    rw [this, Nat.add_comm, List.drop_drop]
    rw [Nat.add_comm]
  · have h1 : min b (l.length - n) = l.length - n := by omega
    rw [h1]
    have h2 : l.length ≤ n + (l.length - n) := by omega
    have h3 : (l.drop n).length ≤ b := by rw [List.length_drop] ; omega
    rw [List.drop_eq_nil_of_le h2, List.drop_eq_nil_of_le h3]

theorem chain_stub (conv : Nat → Timespec) (incP incC : Bool) (ncpus : Nat)
    (st : CMState) :
    ∀ (bs : List Nat) (f : FileH), (∀ x ∈ bs, 1 ≤ x) →
    (document conv incP incC ncpus st).length - f.f_pos ≤ bs.length →
    chainOut false conv incP incC ncpus st f bs
      = (document conv incP incC ncpus st).drop f.f_pos := by
  intro bs
  induction bs with
  | nil =>
    intro f _ hlen
    have : (document conv incP incC ncpus st).length ≤ f.f_pos := by
      simp only [List.length_nil, Nat.le_zero] at hlen
      omega
    rw [List.drop_eq_nil_of_le this]
    rfl
  | cons b bs ih =>
    intro f hone hlen
    have hb : 1 ≤ b := hone b (List.mem_cons_self b bs)
    have hr := read_stub conv incP incC ncpus st f b
    simp only [chainOut]
    rw [hr.2.2.1]
    rw [ih (critmon_read false conv incP incC ncpus st f b).attr
      (fun x hx => hone x (List.mem_cons_of_mem b hx))
      (by
        rw [hr.2.2.2]
        simp only [List.length_cons] at hlen
        omega)]
    rw [hr.1, hr.2.2.2, list_drop_min]
    exact List.take_append_drop b _

/-! ## Sizes of rendered fields -/

theorem natDigitsCore_length (fuel : Nat) :
    ∀ n acc k, 0 < k → n < 10 ^ k →
      (natDigitsCore fuel n acc).length ≤ k + acc.length := by
  induction fuel with
  | zero =>
    intro n acc k hk _
    simp [natDigitsCore]
  | succ fuel ih =>
    intro n acc k hk hn
    simp only [natDigitsCore]
    split
    · simp
      omega
    · rename_i hge
      have hk2 : 2 ≤ k := by
        rcases Nat.lt_or_ge k 2 with hlt | hge2
        · have hk1 : k = 1 := by omega
          subst hk1
          simp at hn
          omega
        · exact hge2
      have hpow : 10 ^ (k - 1) * 10 = 10 ^ k := by
        have hs : k - 1 + 1 = k := by omega
        calc 10 ^ (k - 1) * 10 = 10 ^ (k - 1 + 1) := by rw [pow_succ]
        _ = 10 ^ k := by rw [hs]
      have hdiv : n / 10 < 10 ^ (k - 1) := by omega
      have h := ih (n / 10) (digitChar (n % 10) :: acc) (k - 1) (by omega) hdiv
      simp only [List.length_cons] at h
      omega

theorem natDigits_length_le (n k : Nat) (hk : 0 < k) (hn : n < 10 ^ k) :
    (natDigits n).length ≤ k := by
  have h := natDigitsCore_length (n + 1) n [] k hk hn
  simpa [natDigits] using h

theorem pad9_length (n : Nat) (hn : n < 10 ^ 9) : (pad9 n).length = 9 := by
  have h := natDigits_length_le n 9 (by omega) hn
  simp only [pad9, List.length_append, List.length_replicate]
  omega

theorem snprintf_short (s : List Char) (h : s.length ≤ CRITMON_LINELEN - 1) :
    snprintfLine s = (s, s.length) := by
  simp only [snprintfLine, clampLine]
  rw [List.take_of_length_le h]
  have : min s.length (CRITMON_LINELEN - 1) = s.length := by
    simp only [CRITMON_LINELEN] at h ⊢
    omega
  rw [this]

theorem durChars_length (sec nsec : Nat) (hs : sec < 2 ^ 64)
    (hn : nsec < 10 ^ 9) :
    (durChars ⟨sec, nsec⟩).length = (natDigits sec).length + 11
    ∧ (durChars ⟨sec, nsec⟩).length ≤ 31 := by
  have hsec : (natDigits sec).length ≤ 20 :=
    natDigits_length_le sec 20 (by omega) (by
      calc sec < 2 ^ 64 := hs
      _ < 10 ^ 20 := by norm_num)
  have hp := pad9_length nsec hn
  refine ⟨?_, ?_⟩ <;>
    simp only [durChars, durText, List.length_cons, List.length_append, hp]
  all_goals omega

/-! ## Claims -/

/-- C1: Chunking equivalence.  With the per-CPU counters stubbed to fixed
values independent of reset (`doReset = false`), for every sequence of
buffer sizes each at least 1 that is long enough to drain the document
(after the drain point each further call returns zero bytes and
contributes nothing), concatenating the byte strings returned by
successive read calls on one handle yields exactly the byte string
returned by a single read call with a buffer large enough to hold the
entire document: no bytes duplicated or dropped, including reads that
resume mid-field. -/
theorem C1_chunking_equivalence (conv : Nat → Timespec) (incP incC : Bool)
    (ncpus : Nat) (st : CMState) (f : FileH) (bs : List Nat) (B : Nat)
    (h0 : f.f_pos = 0) (h1 : ∀ x ∈ bs, 1 ≤ x)
    (h2 : (document conv incP incC ncpus st).length ≤ bs.length)
    (h3 : (document conv incP incC ncpus st).length ≤ B) :
    chainOut false conv incP incC ncpus st f bs
      = (critmon_read false conv incP incC ncpus st f B).out := by
  rw [chain_stub conv incP incC ncpus st bs f h1 (by omega)]
  rw [(read_stub conv incP incC ncpus st f B).1]
  rw [h0, List.drop_zero]
  exact (List.take_of_length_le h3).symm

/-- Witness for C1: one CPU, both columns, zero counters, 26 one-byte
reads against one 26-byte read. -/
theorem C1_witness :
    ((⟨0, 0, []⟩ : FileH).f_pos = 0
      ∧ (∀ x ∈ List.replicate 26 1, 1 ≤ x)
      ∧ (document convSecs true true 1 ⟨[0], [0]⟩).length
          ≤ (List.replicate 26 1).length
      ∧ (document convSecs true true 1 ⟨[0], [0]⟩).length ≤ 26)
    ∧ chainOut false convSecs true true 1 ⟨[0], [0]⟩ ⟨0, 0, []⟩
        (List.replicate 26 1)
      = (critmon_read false convSecs true true 1 ⟨[0], [0]⟩ ⟨0, 0, []⟩ 26).out :=
  ⟨⟨rfl, by decide, by decide, by decide⟩,
   C1_chunking_equivalence convSecs true true 1 ⟨[0], [0]⟩ ⟨0, 0, []⟩
     (List.replicate 26 1) 26 rfl (by decide) (by decide) (by decide)⟩

/-- C2: Reset-at-first-visit.  During a read pass, as soon as the cursor
reaches a CPU's preempt-max (resp. crit-max) field — the copy of the CPU
serial number (resp. of all earlier fields) left remaining capacity — the
stored maximum of that CPU and kind is cleared to zero, regardless of how
many of the field's bytes were copied; consequently, in the concrete
scenario where a first read call's buffer is exhausted inside a
multi-field record, a subsequent read call re-entering that CPU's fields
renders the already-reset zero value instead of the original maximum. -/
theorem C2_reset_at_first_visit (conv : Nat → Timespec) (incP incC : Bool)
    (st : CMState) (attr : FileH) (b off cpu : Nat) :
    (incP = true → 0 < b - (copyFields [natDigits cpu] b off).2.1 →
      (critmon_read_cpu true conv incP incC st attr b off cpu).st.premp.getD cpu 0
        = 0)
    ∧ (incC = true → 0 < b - (copyFields (natDigits cpu ::
          (if incP = true then [durChars (durOf conv (st.premp.getD cpu 0))]
           else [])) b off).2.1 →
      (critmon_read_cpu true conv incP incC st attr b off cpu).st.crit.getD cpu 0
        = 0)
    ∧ ((critmon_read true convSecs true true 1 ⟨[5], [7]⟩ ⟨0, 0, []⟩ 2).out
        = "0,".toList
      ∧ (critmon_read true convSecs true true 1
          (critmon_read true convSecs true true 1 ⟨[5], [7]⟩ ⟨0, 0, []⟩ 2).st
          (critmon_read true convSecs true true 1 ⟨[5], [7]⟩ ⟨0, 0, []⟩ 2).attr
          100).out
        = "0.000000000,7.000000000\n".toList) := by
  refine ⟨?_, ?_, by decide, by decide⟩
  · intro hP h
    rw [read_cpu_premp_reset conv incP incC st attr b off cpu hP h]
    exact getD_set_self _ _
  · intro hC h
    rw [read_cpu_crit_reset conv incP incC st attr b off cpu hC h]
    exact getD_set_self _ _

/-- Witness for C2: a 2-byte read from offset 0 reaches CPU 0's
preempt-max field and zeroes it. -/
theorem C2_witness :
    (0 < 2 - (copyFields [natDigits 0] 2 0).2.1)
    ∧ (critmon_read_cpu true convSecs true true ⟨[5], [7]⟩ ⟨0, 0, []⟩
        2 0 0).st.premp.getD 0 0 = 0 :=
  ⟨by decide,
   (C2_reset_at_first_visit convSecs true true ⟨[5], [7]⟩ ⟨0, 0, []⟩ 2 0 0).1
     rfl (by decide)⟩

/-- C3: Exact offset advance.  Every read call returns exactly the number
of bytes it copied, advances the stored `f_pos` by exactly that number,
and a read that copies zero bytes returns 0 (not an error value) and
leaves the stored offset unchanged. -/
theorem C3_exact_offset_advance (doReset : Bool) (conv : Nat → Timespec)
    (incP incC : Bool) (ncpus : Nat) (st : CMState) (f : FileH)
    (buflen : Nat) :
    (critmon_read doReset conv incP incC ncpus st f buflen).ret
      = (critmon_read doReset conv incP incC ncpus st f buflen).out.length
    ∧ (critmon_read doReset conv incP incC ncpus st f buflen).attr.f_pos
      = f.f_pos
        + (critmon_read doReset conv incP incC ncpus st f buflen).out.length
    ∧ ((critmon_read doReset conv incP incC ncpus st f buflen).out = [] →
        (critmon_read doReset conv incP incC ncpus st f buflen).ret = 0
        ∧ (critmon_read doReset conv incP incC ncpus st f buflen).attr.f_pos
            = f.f_pos) := by
  have h := read_ret_len doReset conv incP incC ncpus st f buflen
  refine ⟨h.1, h.2, ?_⟩
  intro hout
  rw [h.1, h.2, hout]
  simp

/-- Witness for C3 at a concrete drained handle: reading past the end
copies nothing, returns 0 and leaves `f_pos` at 26. -/
theorem C3_witness :
    (critmon_read true convSecs true true 1 ⟨[5], [7]⟩ ⟨26, 0, []⟩ 10).out = []
    ∧ (critmon_read true convSecs true true 1 ⟨[5], [7]⟩ ⟨26, 0, []⟩ 10).ret = 0
    ∧ (critmon_read true convSecs true true 1 ⟨[5], [7]⟩ ⟨26, 0, []⟩ 10).attr.f_pos
        = 26 :=
  ⟨by decide,
   ((C3_exact_offset_advance true convSecs true true 1 ⟨[5], [7]⟩ ⟨26, 0, []⟩
      10).2.2 (by decide)).1,
   ((C3_exact_offset_advance true convSecs true true 1 ⟨[5], [7]⟩ ⟨26, 0, []⟩
      10).2.2 (by decide)).2⟩

/-- C4: End-to-end document content.  With 2 CPUs, both optional columns,
CPU0 preempt-max 1.5 s and crit-max 0, CPU1 preempt-max 0 and crit-max
2.25 s, the counters stubbed without reset (1 GHz conversion), a full read
from offset 0 yields exactly the expected 52 bytes, and a zero duration
renders as the eleven characters 0.000000000. -/
theorem C4_end_to_end_document :
    (critmon_read false convGHz true true 2
        ⟨[1500000000, 0], [0, 2250000000]⟩ ⟨0, 0, []⟩ 100).out
      = "0,1.500000000,0.000000000\n1,0.000000000,2.250000000\n".toList
    ∧ durText ⟨0, 0⟩ = "0.000000000".toList := by
  constructor
  · decide
  · decide

/-- C5: Just-in-time consumption and frame condition, in five parts:
a read pass over one CPU that could not get past the serial-number field
changes no counter; one that could not get past the preempt-max field
leaves every crit-max counter unchanged; a pass over one CPU never
touches another CPU's counters; once the loop's capacity is exhausted
(`ret` has reached `buflen`) the remaining CPU passes change no counter;
and concretely, a single wide read spanning both CPUs resets all four
counters in one call while a 2-byte read resets only CPU 0's preempt-max. -/
theorem C5_just_in_time_consumption (conv : Nat → Timespec) (incP incC : Bool)
    (st : CMState) (attr : FileH) (b off cpu : Nat) :
    (b - (copyFields [natDigits cpu] b off).2.1 = 0 →
      (critmon_read_cpu true conv incP incC st attr b off cpu).st = st)
    ∧ (b - (copyFields (natDigits cpu ::
          (if incP = true then [durChars (durOf conv (st.premp.getD cpu 0))]
           else [])) b off).2.1 = 0 →
      (critmon_read_cpu true conv incP incC st attr b off cpu).st.crit
        = st.crit)
    ∧ (∀ j d, j ≠ cpu →
      (critmon_read_cpu true conv incP incC st attr b off cpu).st.premp.getD j d
          = st.premp.getD j d
      ∧ (critmon_read_cpu true conv incP incC st attr b off cpu).st.crit.getD j d
          = st.crit.getD j d)
    ∧ (∀ (cpus : List Nat) (stL : CMState) (attrL : FileH) (buflenL offL : Nat),
        (critmon_loop true conv incP incC cpus stL attrL buflenL buflenL offL).st
          = stL)
    ∧ (critmon_read true convSecs true true 2 ⟨[5, 6], [7, 8]⟩ ⟨0, 0, []⟩
        100).st = ⟨[0, 0], [0, 0]⟩
    ∧ (critmon_read true convSecs true true 2 ⟨[5, 6], [7, 8]⟩ ⟨0, 0, []⟩
        2).st = ⟨[0, 6], [7, 8]⟩ := by
  refine ⟨read_cpu_st_unreached true conv incP incC st attr b off cpu,
    read_cpu_crit_unreached true conv incP incC st attr b off cpu,
    fun j d hj => read_cpu_other true conv incP incC st attr b off cpu j d hj,
    fun cpus stL attrL buflenL offL =>
      (loop_exhausted true conv incP incC cpus stL attrL buflenL buflenL offL
        (Nat.le_refl _)).2.2,
    by decide, by decide⟩

/-- Witness for C5: a 1-byte read of CPU 0's record is exhausted by the
serial number and leaves the counters untouched. -/
theorem C5_witness :
    (1 - (copyFields [natDigits 0] 1 0).2.1 = 0)
    ∧ (critmon_read_cpu true convSecs true true ⟨[5], [7]⟩ ⟨0, 0, []⟩
        1 0 0).st = ⟨[5], [7]⟩ :=
  ⟨by decide,
   (C5_just_in_time_consumption convSecs true true ⟨[5], [7]⟩ ⟨0, 0, []⟩
     1 0 0).1 (by decide)⟩

/-- C6: Dup continuity.  `critmon_dup` hands back the old handle's state
verbatim (offset and scratch buffer), and with the counters stubbed to
reset-independent values, draining the duplicate and draining the
original — even through different buffer-size sequences — yield the same
remaining byte string, both continuing from the duplication point. -/
theorem C6_dup_continuity (conv : Nat → Timespec) (incP incC : Bool)
    (ncpus : Nat) (st : CMState) (oldp newp : FileH) (bs bs2 : List Nat)
    (hdup : critmon_dup oldp true = Except.ok newp)
    (h1 : ∀ x ∈ bs, 1 ≤ x)
    (h2 : (document conv incP incC ncpus st).length - oldp.f_pos ≤ bs.length)
    (h3 : ∀ x ∈ bs2, 1 ≤ x)
    (h4 : (document conv incP incC ncpus st).length - oldp.f_pos ≤ bs2.length) :
    newp = oldp
    ∧ chainOut false conv incP incC ncpus st newp bs
        = chainOut false conv incP incC ncpus st oldp bs2 := by
  have hn : newp = oldp := by
    simp only [critmon_dup, if_pos] at hdup
    exact (Except.ok.inj hdup).symm
  subst hn
  refine ⟨rfl, ?_⟩
  rw [chain_stub conv incP incC ncpus st bs newp h1 h2,
      chain_stub conv incP incC ncpus st bs2 newp h3 h4]

/-- Witness for C6: duplicate a handle 2 bytes into the 26-byte document
and drain both copies with different chunkings. -/
theorem C6_witness :
    (critmon_dup ⟨2, 0, []⟩ true = Except.ok ⟨2, 0, []⟩
      ∧ (∀ x ∈ List.replicate 24 1, 1 ≤ x)
      ∧ (document convSecs true true 1 ⟨[5], [7]⟩).length - 2
          ≤ (List.replicate 24 1).length
      ∧ (∀ x ∈ List.replicate 24 3, 1 ≤ x)
      ∧ (document convSecs true true 1 ⟨[5], [7]⟩).length - 2
          ≤ (List.replicate 24 3).length)
    ∧ chainOut false convSecs true true 1 ⟨[5], [7]⟩ ⟨2, 0, []⟩
        (List.replicate 24 1)
      = chainOut false convSecs true true 1 ⟨[5], [7]⟩ ⟨2, 0, []⟩
          (List.replicate 24 3) :=
  ⟨⟨rfl, by decide, by decide, by decide, by decide⟩,
   (C6_dup_continuity convSecs true true 1 ⟨[5], [7]⟩ ⟨2, 0, []⟩ ⟨2, 0, []⟩
     (List.replicate 24 1) (List.replicate 24 3) rfl (by decide) (by decide)
     (by decide) (by decide)).2⟩

/-- C7: Open flag discipline.  Opening with any write intent fails with
`EACCES` (no handle is produced); opening read-only yields a fresh handle
with offset 0, `linesize` 0 and an empty scratch buffer when allocation
succeeds, and fails with `ENOMEM` when it does not. -/
theorem C7_open_flag_discipline (oflags : Nat) (allocOk : Bool) :
    (oflags &&& O_WRONLY ≠ 0 →
      critmon_open oflags allocOk = Except.error EACCES)
    ∧ (oflags &&& O_WRONLY = 0 → oflags &&& O_RDONLY ≠ 0 →
      critmon_open oflags true = Except.ok ⟨0, 0, []⟩
      ∧ critmon_open oflags false = Except.error ENOMEM) := by
  constructor
  · intro h
    simp [critmon_open, h]
  · intro h1 h2
    constructor <;> simp [critmon_open, h1, h2]

/-- Witness for C7: write-only and read-write intents are refused, a
read-only open succeeds or reports exhausted memory. -/
theorem C7_witness :
    critmon_open 2 true = Except.error EACCES
    ∧ critmon_open 3 true = Except.error EACCES
    ∧ critmon_open 1 true = Except.ok ⟨0, 0, []⟩
    ∧ critmon_open 1 false = Except.error ENOMEM :=
  ⟨(C7_open_flag_discipline 2 true).1 (by decide),
   (C7_open_flag_discipline 3 true).1 (by decide),
   ((C7_open_flag_discipline 1 true).2 (by decide) (by decide)).1,
   ((C7_open_flag_discipline 1 false).2 (by decide) (by decide)).2⟩

/-- C8: Stat attributes.  For every path routed to this node, stat
succeeds (returns 0) and reports a regular file — no directory bit — whose
mode grants read permission to owner, group and other and no write or
execute permission to anyone. -/
theorem C8_stat_attributes (relpath : String) :
    (critmon_stat relpath).1 = 0
    ∧ (critmon_stat relpath).2.st_mode &&& S_IFMT = S_IFREG
    ∧ (critmon_stat relpath).2.st_mode &&& S_IFDIR = 0
    ∧ (critmon_stat relpath).2.st_mode &&& S_IRUSR ≠ 0
    ∧ (critmon_stat relpath).2.st_mode &&& S_IRGRP ≠ 0
    ∧ (critmon_stat relpath).2.st_mode &&& S_IROTH ≠ 0
    ∧ (critmon_stat relpath).2.st_mode &&& S_IWALL = 0
    ∧ (critmon_stat relpath).2.st_mode &&& S_IXALL = 0 := by
  simp only [critmon_stat]
  refine ⟨?_, ?_, ?_, ?_, ?_, ?_, ?_, ?_⟩ <;> decide

/-- C9: Scratch buffer sufficiency.  For every representable counter value
(CPU index below 2^31, seconds below 2^64, nanoseconds below 10^9) each
rendered field — CPU index, duration field, newline — is strictly shorter
than the 64-byte line buffer, so `procfs_snprintf` stores it untruncated
and reports its full length: no document byte is lost to the scratch
bound. -/
theorem C9_scratch_sufficiency (cpu sec nsec : Nat)
    (hc : cpu < 2 ^ 31) (hs : sec < 2 ^ 64) (hn : nsec < 10 ^ 9) :
    (snprintfLine (natDigits cpu) = (natDigits cpu, (natDigits cpu).length)
      ∧ (natDigits cpu).length < CRITMON_LINELEN)
    ∧ (snprintfLine (durChars ⟨sec, nsec⟩)
        = (durChars ⟨sec, nsec⟩, (durChars ⟨sec, nsec⟩).length)
      ∧ (durChars ⟨sec, nsec⟩).length < CRITMON_LINELEN)
    ∧ snprintfLine ['\n'] = (['\n'], 1) := by
  have hcpu : (natDigits cpu).length ≤ 10 :=
    natDigits_length_le cpu 10 (by omega) (by
      calc cpu < 2 ^ 31 := hc
      _ < 10 ^ 10 := by norm_num)
  have hdur := durChars_length sec nsec hs hn
  refine ⟨⟨snprintf_short _ (by simp only [CRITMON_LINELEN] ; omega), ?_⟩,
    ⟨snprintf_short _ (by simp only [CRITMON_LINELEN] ; omega), ?_⟩, ?_⟩
  · simp only [CRITMON_LINELEN] ; omega
  · simp only [CRITMON_LINELEN] ; omega
  · decide

/-- Witness for C9 at concrete counter values. -/
theorem C9_witness :
    (3 < 2 ^ 31 ∧ 1 < 2 ^ 64 ∧ 5 < 10 ^ 9)
    ∧ snprintfLine (durChars ⟨1, 5⟩)
        = (durChars ⟨1, 5⟩, (durChars ⟨1, 5⟩).length) :=
  ⟨⟨by decide, by decide, by decide⟩,
   (C9_scratch_sufficiency 3 1 5 (by decide) (by decide) (by decide)).2.1.1⟩

/-- C10: Zero-length read is a no-op.  For every handle and any counter
state, a read call with a zero-length buffer returns 0, copies nothing,
leaves the stored offset unchanged and resets no per-CPU counter: each
per-CPU pass returns before reaching a counter-consuming field. -/
theorem C10_zero_length_read (doReset : Bool) (conv : Nat → Timespec)
    (incP incC : Bool) (ncpus : Nat) (st : CMState) (f : FileH) :
    (critmon_read doReset conv incP incC ncpus st f 0).ret = 0
    ∧ (critmon_read doReset conv incP incC ncpus st f 0).out = []
    ∧ (critmon_read doReset conv incP incC ncpus st f 0).attr.f_pos = f.f_pos
    ∧ (critmon_read doReset conv incP incC ncpus st f 0).st = st := by
  have h := read_zero doReset conv incP incC ncpus st f
  exact ⟨h.2.1, h.1, h.2.2.2, h.2.2.1⟩

end Critmon
